import Mathlib

/-!
# Verification of `networks_schellingmodel.py`

A shallow embedding of the Schelling segregation model from
`src/networks_schellingmodel.py`, together with proofs that settle the
specification claims about it.

Modelling conventions:
* Python `Node` objects are stored in an arena: `Board.nodes : List Node`, and
  every Python reference to a node is modelled by its index (`Nat`) into that
  list.  The Python lists `self.unsatisfied` and `self.whiteCells` become lists
  of indices, and `list.remove(x)` becomes `List.erase`.
* The neighbor sets (`node.neigh`) are modelled by the fixed adjacency map
  `Board.adj : List (List Nat)`; only colors ever change, never adjacency,
  exactly as in the source.
* Python floats are modelled by `ℚ`.  All stored values (`pval`, `redval`,
  `blueval`) are exact quotients of small neighbor counts, and the distance
  keys compare like the exact squared Euclidean distances, so the rational
  model and the float program order values identically at the scales the
  program runs at.
* `random.sample(l, k=1)[0]` is modelled by an oracle seed `r : Nat` selecting
  the element at index `r % l.length`; `random.shuffle` is modelled by an
  oracle function `List Nat → List Nat` (the theorems that need it assume the
  oracle returns a rearrangement of its input, which is what `random.shuffle`
  guarantees).
* A Python step method returns `True`/`False` or raises; this is the
  `StepResult` type below (`ok` / `stop` / `crash`), carrying the board state
  at the moment of return or raise.
-/

/-- Node color: `'red'`, `'blue'` or `'white'` (empty) in the source. -/
inductive Color where
  | red
  | blue
  | white
deriving DecidableEq, Repr

/-- One grid node: color, coordinates and the cached satisfaction values
(`pval`, `redval`, `blueval`) that `Node.update` recomputes. -/
structure Node where
  color : Color
  x : Int
  y : Int
  pval : ℚ
  redval : ℚ
  blueval : ℚ
deriving DecidableEq, Repr

instance : Inhabited Node := ⟨⟨Color.white, 0, 0, 0, 0, 0⟩⟩

/-- Models `Node.update` from the source, as a pure function of the node's color and
the multiset of its neighbors' colors: returns the new
`(pval, redval, blueval)`.  Mirrors lines 26–58 of the source: count red and
blue neighbors; if both counts are zero all three values are `1`; otherwise
`redval`/`blueval` are the neighbor fractions and `pval` is `1` for a white
node and the own-color fraction for an occupied node. -/
def Node.update (color : Color) (neighColors : List Color) : ℚ × ℚ × ℚ :=
  let redcount : ℕ := neighColors.countP (fun c => c == Color.red)
  let bluecount : ℕ := neighColors.countP (fun c => c == Color.blue)
  if redcount + bluecount = 0 then
    (1, 1, 1)
  else
    let redval : ℚ := (redcount : ℚ) / ((redcount : ℚ) + (bluecount : ℚ))
    let blueval : ℚ := (bluecount : ℚ) / ((redcount : ℚ) + (bluecount : ℚ))
    let pval : ℚ :=
      match color with
      | Color.white => 1
      | Color.red => redval
      | Color.blue => blueval
    (pval, redval, blueval)

/-- The board (Python class `Board`).  The 2-D `self.board` is flattened
row-major into `nodes`; `adj i` lists the indices of node `i`'s neighbors;
`unsatisfied` and `whiteCells` hold node indices; `animationList` holds the
flattened color-code snapshots. -/
structure Board where
  size : Nat
  pbound : ℚ
  stopping : Nat
  nodes : List Node
  adj : List (List Nat)
  unsatisfied : List Nat
  whiteCells : List Nat
  animationList : List (List Int)
deriving DecidableEq, Repr

/-- The node stored at index `i` (a dereference of a Python node reference). -/
def nodeAt (b : Board) (i : Nat) : Node := b.nodes.getD i default

/-- The color of node `i`. -/
def colorAt (b : Board) (i : Nat) : Color := (nodeAt b i).color

/-- The colors of node `i`'s neighbors (reads `self.neigh` colors). -/
def neighborColors (b : Board) (i : Nat) : List Color :=
  (b.adj.getD i []).map (colorAt b)

/-- Node `i` after `node.update()`: color and coordinates unchanged, cached
values recomputed from the current neighbor colors. -/
def refreshNode (b : Board) (i : Nat) : Node :=
  let n := nodeAt b i
  let v := Node.update n.color (neighborColors b i)
  { n with pval := v.1, redval := v.2.1, blueval := v.2.2 }

/-- Models `node.setcolor(c)` on node `i`: writes only the color field. -/
def setcolor (b : Board) (i : Nat) (c : Color) : Board :=
  { b with nodes := b.nodes.set i { nodeAt b i with color := c } }

/-- Models `Board.reload_sets` (source lines 139–155): rescan every node in row-major
order, recompute its `pval` via `update`, and rebuild `whiteCells` (all white
nodes) and `unsatisfied` (non-white nodes whose fresh `pval` is below
`pbound`) from scratch.  `update` reads only neighbor *colors*, which the scan
never writes, so updating all nodes pointwise is exactly the in-place scan. -/
def reload_sets (b : Board) : Board :=
  let idx := List.range b.nodes.length
  { b with
    nodes := idx.map (refreshNode b),
    whiteCells := idx.filter (fun i => colorAt b i == Color.white),
    unsatisfied := idx.filter (fun i =>
      colorAt b i != Color.white && decide ((refreshNode b i).pval < b.pbound)) }

/-- The integer color code of `to_np_colorcode`: red ↦ 100, blue ↦ -100,
white ↦ 0. -/
def colorcode : Color → Int
  | Color.red => 100
  | Color.blue => -100
  | Color.white => 0

/-- Models `Board.to_np_colorcode` (source lines 888–904), flattened row-major. -/
def to_np_colorcode (b : Board) : List Int :=
  b.nodes.map (fun n => colorcode n.color)

/-- Models `self.animationList.append(self.to_np_colorcode())`. -/
def pushSnapshot (b : Board) : Board :=
  { b with animationList := b.animationList ++ [to_np_colorcode b] }

/-- Number of nodes of color `c` on the board. -/
def countColor (b : Board) (c : Color) : Nat :=
  b.nodes.countP (fun n => n.color == c)

/-- Models `random.sample(l, k=1)[0]` with oracle seed `r`: `none` models the
`ValueError` raised on an empty population, otherwise the element at index
`r % l.length`. -/
def sample (l : List Nat) (r : Nat) : Option Nat :=
  if l.isEmpty then none else some (l.getD (r % l.length) 0)

theorem sample_isEmpty (l : List Nat) (r : Nat) (h : l.isEmpty) : sample l r = none := by
  simp [sample, h]

theorem sample_eq_some (l : List Nat) (r : Nat) (h : ¬ l.isEmpty) :
    sample l r = some (l.getD (r % l.length) 0) := by
  simp [sample, h]

theorem sample_mem {l : List Nat} {r : Nat} {a : Nat} (h : sample l r = some a) : a ∈ l := by
  unfold sample at h
  split at h
  next he => cases h
  next he =>
    injection h with h
    subst h
    have hlen : 0 < l.length := by
      cases l with
      | nil => simp at he
      | cons x xs => simp
    have hmod : r % l.length < l.length := Nat.mod_lt _ hlen
    rw [List.getD_eq_getElem l 0 hmod]
    exact List.getElem_mem hmod

/-- Squared Euclidean distance between two nodes.  The source's `distance`
takes the float square root; the square root is strictly monotone on the
integer squared distances the program produces, so sorting by this exact key
with a stable sort yields the same order as the source's stable sort by the
float key. -/
def distSq (n1 n2 : Node) : Int :=
  (n1.x - n2.x) ^ 2 + (n1.y - n2.y) ^ 2

/-- Stable insertion of `x` (arriving after every element of `l`) into a list
sorted by `key`: `x` goes after all elements whose key is `≤ key x`. -/
def insertByKey (key : Nat → Int) (x : Nat) : List Nat → List Nat
  | [] => [x]
  | y :: ys => if key x < key y then x :: y :: ys else y :: insertByKey key x ys

/-- Stable sort by `key` (insertion sort, processing elements left to right),
modelling Python's stable `list.sort(key=...)`. -/
def sortByKey (key : Nat → Int) (l : List Nat) : List Nat :=
  l.foldl (fun acc x => insertByKey key x acc) []

/-- Models `self.whiteCells.sort(key = lambda Node: distance(Moving, Node))` with
mover index `mi` over candidate indices `ws`. -/
def sortByDist (b : Board) (mi : Nat) (ws : List Nat) : List Nat :=
  sortByKey (fun i => distSq (nodeAt b mi) (nodeAt b i)) ws

theorem insertByKey_perm (key : Nat → Int) (x : Nat) (l : List Nat) :
    (insertByKey key x l).Perm (x :: l) := by
  induction l with
  | nil => simp [insertByKey]
  | cons y ys ih =>
    unfold insertByKey
    split
    · exact List.Perm.refl _
    · exact (ih.cons y).trans (List.Perm.swap x y ys)

theorem sortByKey_perm (key : Nat → Int) (l : List Nat) : (sortByKey key l).Perm l := by
  suffices h : ∀ (l acc : List Nat),
      (l.foldl (fun a x => insertByKey key x a) acc).Perm (acc ++ l) by
    simpa using h l []
  intro l
  induction l with
  | nil => intro acc; simp
  | cons x xs ih =>
    intro acc
    have h1 := ih (insertByKey key x acc)
    have h2 := (insertByKey_perm key x acc).append_right xs
    have h3 : ((x :: acc) ++ xs).Perm (acc ++ x :: xs) := List.perm_middle.symm
    exact h1.trans (h2.trans h3)

theorem sortByDist_mem (b : Board) (mi : Nat) (ws : List Nat) (i : Nat) :
    i ∈ sortByDist b mi ws ↔ i ∈ ws :=
  (sortByKey_perm _ ws).mem_iff

/-- The `### Find Satisfying` scan shared verbatim by every satisfy variant:
scan the candidate list in order and return the first candidate whose cached
`redval` (for a red mover) or `blueval` (for a blue mover) is at least
`pbound`; `none` when the scan exhausts the list.  For a white mover neither
branch of the source runs, so the result stays `None`. -/
def findSatisfying (b : Board) (color : Color) (ws : List Nat) : Option Nat :=
  match color with
  | Color.red => ws.find? (fun i => decide (b.pbound ≤ (nodeAt b i).redval))
  | Color.blue => ws.find? (fun i => decide (b.pbound ≤ (nodeAt b i).blueval))
  | Color.white => none

/-- The `### No candidate for current color, try other color` loop shared by
the random satisfy-stop variants (source lines 244–267 and its copies): walk
the unsatisfied list; skip cells of the mover's own color; rescan the (already
shuffled) candidate list for the other cell's color, substituting mover and
destination on success; after a failed rescan, if the destination is still
unset, return `False` (modelled as `none`).  Returns `some (moving, empty?)`
when the loop runs to completion; `empty? = none` there models the `None`
destination that the subsequent `Empty.setcolor` dereferences. -/
def otherScanRandom (b : Board) (color : Color) (ws : List Nat) :
    List Nat → Nat → Option Nat → Option (Nat × Option Nat)
  | [], moving, empty => some (moving, empty)
  | om :: rest, moving, empty =>
    if colorAt b om == color then
      otherScanRandom b color ws rest moving empty
    else
      match findSatisfying b (colorAt b om) ws, empty with
      | some e, _ => otherScanRandom b color ws rest om (some e)
      | none, none => none
      | none, some e => otherScanRandom b color ws rest moving (some e)

/-- The fallback loop of the closest satisfy-stop variants (source lines
343–367 and its copies).  Identical to `otherScanRandom` except that each
iteration first re-sorts the candidate list by distance to the candidate
mover; the current candidate list is threaded through and returned (also at
the `return False` exit, `inl`), since the sort mutates `self.whiteCells` in
place. -/
def otherScanClosest (b : Board) (color : Color) :
    List Nat → List Nat → Nat → Option Nat → Sum (List Nat) (Nat × Option Nat × List Nat)
  | ws, [], moving, empty => Sum.inr (moving, empty, ws)
  | ws, om :: rest, moving, empty =>
    if colorAt b om == color then
      otherScanClosest b color ws rest moving empty
    else
      match findSatisfying b (colorAt b om) (sortByDist b om ws), empty with
      | some e, _ => otherScanClosest b color (sortByDist b om ws) rest om (some e)
      | none, none => Sum.inl (sortByDist b om ws)
      | none, some e => otherScanClosest b color (sortByDist b om ws) rest moving (some e)

/-- Result of one external step call: the Python method returned `True`
(`ok`), returned `False` (`stop`), or raised an exception (`crash`); the
payload is the board state at that moment. -/
inductive StepResult where
  | ok (b : Board)
  | stop (b : Board)
  | crash (b : Board)
deriving DecidableEq, Repr

/-- Whether the call returned `False`. -/
def StepResult.isStop : StepResult → Bool
  | StepResult.stop _ => true
  | _ => false

/-- Whether the call raised an exception. -/
def StepResult.isCrash : StepResult → Bool
  | StepResult.crash _ => true
  | _ => false

/-- The board carried by a step result. -/
def StepResult.board : StepResult → Board
  | StepResult.ok b => b
  | StepResult.stop b => b
  | StepResult.crash b => b

/-- The shared tail of every successful single move:
`Empty.setcolor(Moving.color); Moving.setcolor('white'); self.reload_sets();
self.animationList.append(self.to_np_colorcode()); return True`. -/
def moveAndRefresh (b : Board) (mi ei : Nat) : StepResult :=
  let b1 := setcolor b ei (colorAt b mi)
  let b2 := setcolor b1 mi Color.white
  StepResult.ok (pushSnapshot (reload_sets b2))

/-- Per-call randomness: the `k`-th mover draw, destination draw, and shuffle
performed during one external step call. -/
structure StepOracle where
  moveSeed : Nat → Nat
  emptySeed : Nat → Nat
  shuffle : Nat → List Nat → List Nat

/-- Models `Board.step_single_random` (source lines 213–223). -/
def step_single_random (b : Board) (o : StepOracle) : StepResult :=
  match sample b.unsatisfied (o.moveSeed 0) with
  | none => StepResult.crash b
  | some mi =>
    match sample b.whiteCells (o.emptySeed 0) with
    | none => StepResult.crash b
    | some ei => moveAndRefresh b mi ei

/-- Models `Board.step_single_randomSat_stop` (source lines 225–275): sample a mover,
shuffle the white cells, scan for a satisfying destination of the mover's
color; on failure run the other-color fallback loop, which either returns
`False` or leaves a (possibly substituted) mover/destination pair; a `None`
destination surviving the loop crashes on `Empty.setcolor`. -/
def step_single_randomSat_stop (b : Board) (o : StepOracle) : StepResult :=
  match sample b.unsatisfied (o.moveSeed 0) with
  | none => StepResult.crash b
  | some mi =>
    let b1 := { b with whiteCells := o.shuffle 0 b.whiteCells }
    match findSatisfying b1 (colorAt b1 mi) b1.whiteCells with
    | some ei => moveAndRefresh b1 mi ei
    | none =>
      match otherScanRandom b1 (colorAt b1 mi) b1.whiteCells b1.unsatisfied mi none with
      | none => StepResult.stop b1
      | some (mi', some ei) => moveAndRefresh b1 mi' ei
      | some (_, none) => StepResult.crash b1

/-- Models `Board.step_single_randomSat_cont` (source lines 277–306): like the stop
variant but a failed scan falls back to a uniformly random white cell. -/
def step_single_randomSat_cont (b : Board) (o : StepOracle) : StepResult :=
  match sample b.unsatisfied (o.moveSeed 0) with
  | none => StepResult.crash b
  | some mi =>
    let b1 := { b with whiteCells := o.shuffle 0 b.whiteCells }
    match findSatisfying b1 (colorAt b1 mi) b1.whiteCells with
    | some ei => moveAndRefresh b1 mi ei
    | none =>
      match sample b1.whiteCells (o.emptySeed 0) with
      | none => StepResult.crash b1
      | some ei => moveAndRefresh b1 mi ei

/-- Models `Board.step_single_closest` (source lines 308–320): sample a mover, sort
the white cells by distance to it, take the closest (`whiteCells[0]` — an
`IndexError` when the list is empty), then check the stopping floor and only
afterwards move. -/
def step_single_closest (b : Board) (o : StepOracle) : StepResult :=
  match sample b.unsatisfied (o.moveSeed 0) with
  | none => StepResult.crash b
  | some mi =>
    let b1 := { b with whiteCells := sortByDist b mi b.whiteCells }
    match b1.whiteCells with
    | [] => StepResult.crash b1
    | ei :: _ =>
      if b1.unsatisfied.length < b1.stopping then StepResult.stop b1
      else moveAndRefresh b1 mi ei

/-- Models `Board.step_single_closestSat_stop` (source lines 322–375): sample a
mover, sort the white cells by distance to it, check the stopping floor, then
run the satisfy scan and, on failure, the re-sorting other-color fallback
loop. -/
def step_single_closestSat_stop (b : Board) (o : StepOracle) : StepResult :=
  match sample b.unsatisfied (o.moveSeed 0) with
  | none => StepResult.crash b
  | some mi =>
    let b1 := { b with whiteCells := sortByDist b mi b.whiteCells }
    if b1.unsatisfied.length < b1.stopping then StepResult.stop b1
    else
      match findSatisfying b1 (colorAt b1 mi) b1.whiteCells with
      | some ei => moveAndRefresh b1 mi ei
      | none =>
        match otherScanClosest b1 (colorAt b1 mi) b1.whiteCells b1.unsatisfied mi none with
        | Sum.inl ws' => StepResult.stop { b1 with whiteCells := ws' }
        | Sum.inr (mi', some ei, ws') => moveAndRefresh { b1 with whiteCells := ws' } mi' ei
        | Sum.inr (_, none, ws') => StepResult.crash { b1 with whiteCells := ws' }

/-- Models `Board.step_single_closestSat_cont` (source lines 377–408): like the stop
variant but a failed scan falls back to the closest white cell
(`whiteCells[0]`, an `IndexError` when the list is empty). -/
def step_single_closestSat_cont (b : Board) (o : StepOracle) : StepResult :=
  match sample b.unsatisfied (o.moveSeed 0) with
  | none => StepResult.crash b
  | some mi =>
    let b1 := { b with whiteCells := sortByDist b mi b.whiteCells }
    if b1.unsatisfied.length < b1.stopping then StepResult.stop b1
    else
      match findSatisfying b1 (colorAt b1 mi) b1.whiteCells with
      | some ei => moveAndRefresh b1 mi ei
      | none =>
        match b1.whiteCells with
        | [] => StepResult.crash b1
        | ei :: _ => moveAndRefresh b1 mi ei

/-- Result of a batch drain loop: the `while` loop finished normally
(`done`), the function returned `False` from inside the loop (`stopped`), or
an exception was raised inside the loop (`crashed`). -/
inductive DrainResult where
  | done (b : Board)
  | stopped (b : Board)
  | crashed (b : Board)
deriving DecidableEq, Repr

/-- The `while self.unsatisfied and self.whiteCells` drain of
`Board.step_batch_random` (source lines 429–444): sample a mover and a
destination, remove the destination from `whiteCells` and the mover from
`unsatisfied`, recolor, repeat.  `k` numbers the iteration (for the oracle);
`fuel` bounds the recursion: every iteration removes one member of
`unsatisfied`, so starting the loop with `fuel = unsatisfied.length` makes
the `fuel = 0` case coincide with the loop condition turning false. -/
def batchRandomLoop (o : StepOracle) : Nat → Nat → Board → Board
  | _, 0, b => b
  | k, fuel + 1, b =>
    if b.unsatisfied.isEmpty || b.whiteCells.isEmpty then b
    else
      let mi := b.unsatisfied.getD (o.moveSeed k % b.unsatisfied.length) 0
      let ei := b.whiteCells.getD (o.emptySeed k % b.whiteCells.length) 0
      let b1 := { b with whiteCells := b.whiteCells.erase ei,
                         unsatisfied := b.unsatisfied.erase mi }
      let b2 := setcolor (setcolor b1 ei (colorAt b1 mi)) mi Color.white
      batchRandomLoop o (k + 1) fuel b2

/-- Number of micro-moves performed by the `step_batch_random` drain: the same
recursion as `batchRandomLoop`, counting iterations. -/
def batchRandomMoves (o : StepOracle) : Nat → Nat → Board → Nat
  | _, 0, _ => 0
  | k, fuel + 1, b =>
    if b.unsatisfied.isEmpty || b.whiteCells.isEmpty then 0
    else
      let mi := b.unsatisfied.getD (o.moveSeed k % b.unsatisfied.length) 0
      let ei := b.whiteCells.getD (o.emptySeed k % b.whiteCells.length) 0
      let b1 := { b with whiteCells := b.whiteCells.erase ei,
                         unsatisfied := b.unsatisfied.erase mi }
      let b2 := setcolor (setcolor b1 ei (colorAt b1 mi)) mi Color.white
      batchRandomMoves o (k + 1) fuel b2 + 1

/-- Models `Board.step_batch_random` (source lines 429–444): drain, then one
`reload_sets` and one snapshot, then `return True`. -/
def step_batch_random (b : Board) (o : StepOracle) : StepResult :=
  StepResult.ok (pushSnapshot (reload_sets (batchRandomLoop o 0 b.unsatisfied.length b)))

/-- The drain of `Board.step_whitebatch_random` (source lines 410–427):
identical to `batchRandomLoop` except that the vacated mover is appended back
to `whiteCells`. -/
def whitebatchRandomLoop (o : StepOracle) : Nat → Nat → Board → Board
  | _, 0, b => b
  | k, fuel + 1, b =>
    if b.unsatisfied.isEmpty || b.whiteCells.isEmpty then b
    else
      let mi := b.unsatisfied.getD (o.moveSeed k % b.unsatisfied.length) 0
      let ei := b.whiteCells.getD (o.emptySeed k % b.whiteCells.length) 0
      let b1 := { b with whiteCells := b.whiteCells.erase ei ++ [mi],
                         unsatisfied := b.unsatisfied.erase mi }
      let b2 := setcolor (setcolor b1 ei (colorAt b1 mi)) mi Color.white
      whitebatchRandomLoop o (k + 1) fuel b2

/-- Number of micro-moves performed by the `step_whitebatch_random` drain. -/
def whitebatchRandomMoves (o : StepOracle) : Nat → Nat → Board → Nat
  | _, 0, _ => 0
  | k, fuel + 1, b =>
    if b.unsatisfied.isEmpty || b.whiteCells.isEmpty then 0
    else
      let mi := b.unsatisfied.getD (o.moveSeed k % b.unsatisfied.length) 0
      let ei := b.whiteCells.getD (o.emptySeed k % b.whiteCells.length) 0
      let b1 := { b with whiteCells := b.whiteCells.erase ei ++ [mi],
                         unsatisfied := b.unsatisfied.erase mi }
      let b2 := setcolor (setcolor b1 ei (colorAt b1 mi)) mi Color.white
      whitebatchRandomMoves o (k + 1) fuel b2 + 1

/-- Models `Board.step_whitebatch_random` (source lines 410–427). -/
def step_whitebatch_random (b : Board) (o : StepOracle) : StepResult :=
  StepResult.ok (pushSnapshot (reload_sets (whitebatchRandomLoop o 0 b.unsatisfied.length b)))

/-- The drain of `Board.step_batch_randomSat_stop` (source lines 504–559):
each iteration is the satisfy-stop mover/destination resolution of
`step_single_randomSat_stop`; the `CATASTROPHIC` branch returns `False` from
inside the loop, and a `None` destination surviving the fallback loop raises
on `whiteCells.remove(None)` before any list or color mutation. -/
def batchRandomSatStopLoop (o : StepOracle) : Nat → Nat → Board → DrainResult
  | _, 0, b => DrainResult.done b
  | k, fuel + 1, b =>
    if b.unsatisfied.isEmpty || b.whiteCells.isEmpty then DrainResult.done b
    else
      match sample b.unsatisfied (o.moveSeed k) with
      | none => DrainResult.crashed b
      | some mi =>
        let b1 := { b with whiteCells := o.shuffle k b.whiteCells }
        match (match findSatisfying b1 (colorAt b1 mi) b1.whiteCells with
               | some ei => some (mi, some ei)
               | none =>
                 otherScanRandom b1 (colorAt b1 mi) b1.whiteCells b1.unsatisfied mi none) with
        | none => DrainResult.stopped b1
        | some (_, none) => DrainResult.crashed b1
        | some (mi', some ei) =>
          let b2 := { b1 with whiteCells := b1.whiteCells.erase ei,
                              unsatisfied := b1.unsatisfied.erase mi' }
          let b3 := setcolor (setcolor b2 ei (colorAt b2 mi')) mi' Color.white
          batchRandomSatStopLoop o (k + 1) fuel b3

/-- Models `Board.step_batch_randomSat_stop` (source lines 504–559). -/
def step_batch_randomSat_stop (b : Board) (o : StepOracle) : StepResult :=
  match batchRandomSatStopLoop o 0 b.unsatisfied.length b with
  | DrainResult.done b' => StepResult.ok (pushSnapshot (reload_sets b'))
  | DrainResult.stopped b' => StepResult.stop b'
  | DrainResult.crashed b' => StepResult.crash b'

/-- The drain of `Board.step_whitebatch_randomSat_stop` (source lines
446–502): as `batchRandomSatStopLoop` plus the vacated mover appended back to
`whiteCells`. -/
def whitebatchRandomSatStopLoop (o : StepOracle) : Nat → Nat → Board → DrainResult
  | _, 0, b => DrainResult.done b
  | k, fuel + 1, b =>
    if b.unsatisfied.isEmpty || b.whiteCells.isEmpty then DrainResult.done b
    else
      match sample b.unsatisfied (o.moveSeed k) with
      | none => DrainResult.crashed b
      | some mi =>
        let b1 := { b with whiteCells := o.shuffle k b.whiteCells }
        match (match findSatisfying b1 (colorAt b1 mi) b1.whiteCells with
               | some ei => some (mi, some ei)
               | none =>
                 otherScanRandom b1 (colorAt b1 mi) b1.whiteCells b1.unsatisfied mi none) with
        | none => DrainResult.stopped b1
        | some (_, none) => DrainResult.crashed b1
        | some (mi', some ei) =>
          let b2 := { b1 with whiteCells := b1.whiteCells.erase ei ++ [mi'],
                              unsatisfied := b1.unsatisfied.erase mi' }
          let b3 := setcolor (setcolor b2 ei (colorAt b2 mi')) mi' Color.white
          whitebatchRandomSatStopLoop o (k + 1) fuel b3

/-- Models `Board.step_whitebatch_randomSat_stop` (source lines 446–502). -/
def step_whitebatch_randomSat_stop (b : Board) (o : StepOracle) : StepResult :=
  match whitebatchRandomSatStopLoop o 0 b.unsatisfied.length b with
  | DrainResult.done b' => StepResult.ok (pushSnapshot (reload_sets b'))
  | DrainResult.stopped b' => StepResult.stop b'
  | DrainResult.crashed b' => StepResult.crash b'

/-- The drain of `Board.step_batch_randomSat_cont` (source lines 599–633): a
failed satisfy scan falls back to a uniformly random white cell. -/
def batchRandomSatContLoop (o : StepOracle) : Nat → Nat → Board → DrainResult
  | _, 0, b => DrainResult.done b
  | k, fuel + 1, b =>
    if b.unsatisfied.isEmpty || b.whiteCells.isEmpty then DrainResult.done b
    else
      match sample b.unsatisfied (o.moveSeed k) with
      | none => DrainResult.crashed b
      | some mi =>
        let b1 := { b with whiteCells := o.shuffle k b.whiteCells }
        match (match findSatisfying b1 (colorAt b1 mi) b1.whiteCells with
               | some ei => some ei
               | none => sample b1.whiteCells (o.emptySeed k)) with
        | none => DrainResult.crashed b1
        | some ei =>
          let b2 := { b1 with whiteCells := b1.whiteCells.erase ei,
                              unsatisfied := b1.unsatisfied.erase mi }
          let b3 := setcolor (setcolor b2 ei (colorAt b2 mi)) mi Color.white
          batchRandomSatContLoop o (k + 1) fuel b3

/-- Models `Board.step_batch_randomSat_cont` (source lines 599–633). -/
def step_batch_randomSat_cont (b : Board) (o : StepOracle) : StepResult :=
  match batchRandomSatContLoop o 0 b.unsatisfied.length b with
  | DrainResult.done b' => StepResult.ok (pushSnapshot (reload_sets b'))
  | DrainResult.stopped b' => StepResult.stop b'
  | DrainResult.crashed b' => StepResult.crash b'

/-- The drain of `Board.step_whitebatch_randomSat_cont` (source lines
561–597). -/
def whitebatchRandomSatContLoop (o : StepOracle) : Nat → Nat → Board → DrainResult
  | _, 0, b => DrainResult.done b
  | k, fuel + 1, b =>
    if b.unsatisfied.isEmpty || b.whiteCells.isEmpty then DrainResult.done b
    else
      match sample b.unsatisfied (o.moveSeed k) with
      | none => DrainResult.crashed b
      | some mi =>
        let b1 := { b with whiteCells := o.shuffle k b.whiteCells }
        match (match findSatisfying b1 (colorAt b1 mi) b1.whiteCells with
               | some ei => some ei
               | none => sample b1.whiteCells (o.emptySeed k)) with
        | none => DrainResult.crashed b1
        | some ei =>
          let b2 := { b1 with whiteCells := b1.whiteCells.erase ei ++ [mi],
                              unsatisfied := b1.unsatisfied.erase mi }
          let b3 := setcolor (setcolor b2 ei (colorAt b2 mi)) mi Color.white
          whitebatchRandomSatContLoop o (k + 1) fuel b3

/-- Models `Board.step_whitebatch_randomSat_cont` (source lines 561–597). -/
def step_whitebatch_randomSat_cont (b : Board) (o : StepOracle) : StepResult :=
  match whitebatchRandomSatContLoop o 0 b.unsatisfied.length b with
  | DrainResult.done b' => StepResult.ok (pushSnapshot (reload_sets b'))
  | DrainResult.stopped b' => StepResult.stop b'
  | DrainResult.crashed b' => StepResult.crash b'

/-- The drain of `Board.step_batch_closest` (source lines 658–678): sample a
mover, sort `whiteCells` by distance to it, take `whiteCells[0]`, then check
the stopping floor (`return False` from inside the loop, skipping the final
refresh and snapshot), then remove and recolor. -/
def batchClosestLoop (o : StepOracle) : Nat → Nat → Board → DrainResult
  | _, 0, b => DrainResult.done b
  | k, fuel + 1, b =>
    if b.unsatisfied.isEmpty || b.whiteCells.isEmpty then DrainResult.done b
    else
      match sample b.unsatisfied (o.moveSeed k) with
      | none => DrainResult.crashed b
      | some mi =>
        let b1 := { b with whiteCells := sortByDist b mi b.whiteCells }
        match b1.whiteCells with
        | [] => DrainResult.crashed b1
        | ei :: _ =>
          if b1.unsatisfied.length < b1.stopping then DrainResult.stopped b1
          else
            let b2 := { b1 with whiteCells := b1.whiteCells.erase ei,
                                unsatisfied := b1.unsatisfied.erase mi }
            let b3 := setcolor (setcolor b2 ei (colorAt b2 mi)) mi Color.white
            batchClosestLoop o (k + 1) fuel b3

/-- Models `Board.step_batch_closest` (source lines 658–678). -/
def step_batch_closest (b : Board) (o : StepOracle) : StepResult :=
  match batchClosestLoop o 0 b.unsatisfied.length b with
  | DrainResult.done b' => StepResult.ok (pushSnapshot (reload_sets b'))
  | DrainResult.stopped b' => StepResult.stop b'
  | DrainResult.crashed b' => StepResult.crash b'

/-- The drain of `Board.step_whitebatch_closest` (source lines 635–656). -/
def whitebatchClosestLoop (o : StepOracle) : Nat → Nat → Board → DrainResult
  | _, 0, b => DrainResult.done b
  | k, fuel + 1, b =>
    if b.unsatisfied.isEmpty || b.whiteCells.isEmpty then DrainResult.done b
    else
      match sample b.unsatisfied (o.moveSeed k) with
      | none => DrainResult.crashed b
      | some mi =>
        let b1 := { b with whiteCells := sortByDist b mi b.whiteCells }
        match b1.whiteCells with
        | [] => DrainResult.crashed b1
        | ei :: _ =>
          if b1.unsatisfied.length < b1.stopping then DrainResult.stopped b1
          else
            let b2 := { b1 with whiteCells := b1.whiteCells.erase ei ++ [mi],
                                unsatisfied := b1.unsatisfied.erase mi }
            let b3 := setcolor (setcolor b2 ei (colorAt b2 mi)) mi Color.white
            whitebatchClosestLoop o (k + 1) fuel b3

/-- Models `Board.step_whitebatch_closest` (source lines 635–656). -/
def step_whitebatch_closest (b : Board) (o : StepOracle) : StepResult :=
  match whitebatchClosestLoop o 0 b.unsatisfied.length b with
  | DrainResult.done b' => StepResult.ok (pushSnapshot (reload_sets b'))
  | DrainResult.stopped b' => StepResult.stop b'
  | DrainResult.crashed b' => StepResult.crash b'

/-- The drain of `Board.step_batch_closestSat_stop` (source lines 742–801):
sorted satisfy-stop resolution with stopping floor; a `None` destination
surviving the fallback loop raises on `whiteCells.remove(None)` *after*
`unsatisfied.remove(Moving)` has already run. -/
def batchClosestSatStopLoop (o : StepOracle) : Nat → Nat → Board → DrainResult
  | _, 0, b => DrainResult.done b
  | k, fuel + 1, b =>
    if b.unsatisfied.isEmpty || b.whiteCells.isEmpty then DrainResult.done b
    else
      match sample b.unsatisfied (o.moveSeed k) with
      | none => DrainResult.crashed b
      | some mi =>
        let b1 := { b with whiteCells := sortByDist b mi b.whiteCells }
        if b1.unsatisfied.length < b1.stopping then DrainResult.stopped b1
        else
          match (match findSatisfying b1 (colorAt b1 mi) b1.whiteCells with
                 | some ei => Sum.inr (mi, some ei, b1.whiteCells)
                 | none =>
                   otherScanClosest b1 (colorAt b1 mi) b1.whiteCells b1.unsatisfied mi none) with
          | Sum.inl ws' => DrainResult.stopped { b1 with whiteCells := ws' }
          | Sum.inr (mi', none, ws') =>
            DrainResult.crashed { b1 with whiteCells := ws',
                                          unsatisfied := b1.unsatisfied.erase mi' }
          | Sum.inr (mi', some ei, ws') =>
            let b2 := { b1 with whiteCells := ws'.erase ei,
                                unsatisfied := b1.unsatisfied.erase mi' }
            let b3 := setcolor (setcolor b2 ei (colorAt b2 mi')) mi' Color.white
            batchClosestSatStopLoop o (k + 1) fuel b3

/-- Models `Board.step_batch_closestSat_stop` (source lines 742–801). -/
def step_batch_closestSat_stop (b : Board) (o : StepOracle) : StepResult :=
  match batchClosestSatStopLoop o 0 b.unsatisfied.length b with
  | DrainResult.done b' => StepResult.ok (pushSnapshot (reload_sets b'))
  | DrainResult.stopped b' => StepResult.stop b'
  | DrainResult.crashed b' => StepResult.crash b'

/-- The drain of `Board.step_whitebatch_closestSat_stop` (source lines
680–740): as `batchClosestSatStopLoop` plus the vacated mover appended back
to `whiteCells`. -/
def whitebatchClosestSatStopLoop (o : StepOracle) : Nat → Nat → Board → DrainResult
  | _, 0, b => DrainResult.done b
  | k, fuel + 1, b =>
    if b.unsatisfied.isEmpty || b.whiteCells.isEmpty then DrainResult.done b
    else
      match sample b.unsatisfied (o.moveSeed k) with
      | none => DrainResult.crashed b
      | some mi =>
        let b1 := { b with whiteCells := sortByDist b mi b.whiteCells }
        if b1.unsatisfied.length < b1.stopping then DrainResult.stopped b1
        else
          match (match findSatisfying b1 (colorAt b1 mi) b1.whiteCells with
                 | some ei => Sum.inr (mi, some ei, b1.whiteCells)
                 | none =>
                   otherScanClosest b1 (colorAt b1 mi) b1.whiteCells b1.unsatisfied mi none) with
          | Sum.inl ws' => DrainResult.stopped { b1 with whiteCells := ws' }
          | Sum.inr (mi', none, ws') =>
            DrainResult.crashed { b1 with whiteCells := ws',
                                          unsatisfied := b1.unsatisfied.erase mi' }
          | Sum.inr (mi', some ei, ws') =>
            let b2 := { b1 with whiteCells := ws'.erase ei ++ [mi'],
                                unsatisfied := b1.unsatisfied.erase mi' }
            let b3 := setcolor (setcolor b2 ei (colorAt b2 mi')) mi' Color.white
            whitebatchClosestSatStopLoop o (k + 1) fuel b3

/-- Models `Board.step_whitebatch_closestSat_stop` (source lines 680–740). -/
def step_whitebatch_closestSat_stop (b : Board) (o : StepOracle) : StepResult :=
  match whitebatchClosestSatStopLoop o 0 b.unsatisfied.length b with
  | DrainResult.done b' => StepResult.ok (pushSnapshot (reload_sets b'))
  | DrainResult.stopped b' => StepResult.stop b'
  | DrainResult.crashed b' => StepResult.crash b'

/-- The drain of `Board.step_batch_closestSat_cont` (source lines 843–880): a
failed satisfy scan falls back to the closest white cell (`whiteCells[0]`). -/
def batchClosestSatContLoop (o : StepOracle) : Nat → Nat → Board → DrainResult
  | _, 0, b => DrainResult.done b
  | k, fuel + 1, b =>
    if b.unsatisfied.isEmpty || b.whiteCells.isEmpty then DrainResult.done b
    else
      match sample b.unsatisfied (o.moveSeed k) with
      | none => DrainResult.crashed b
      | some mi =>
        let b1 := { b with whiteCells := sortByDist b mi b.whiteCells }
        if b1.unsatisfied.length < b1.stopping then DrainResult.stopped b1
        else
          match (match findSatisfying b1 (colorAt b1 mi) b1.whiteCells with
                 | some ei => some ei
                 | none => b1.whiteCells.head?) with
          | none => DrainResult.crashed b1
          | some ei =>
            let b2 := { b1 with whiteCells := b1.whiteCells.erase ei,
                                unsatisfied := b1.unsatisfied.erase mi }
            let b3 := setcolor (setcolor b2 ei (colorAt b2 mi)) mi Color.white
            batchClosestSatContLoop o (k + 1) fuel b3

/-- Models `Board.step_batch_closestSat_cont` (source lines 843–880). -/
def step_batch_closestSat_cont (b : Board) (o : StepOracle) : StepResult :=
  match batchClosestSatContLoop o 0 b.unsatisfied.length b with
  | DrainResult.done b' => StepResult.ok (pushSnapshot (reload_sets b'))
  | DrainResult.stopped b' => StepResult.stop b'
  | DrainResult.crashed b' => StepResult.crash b'

/-- The drain of `Board.step_whitebatch_closestSat_cont` (source lines
803–841). -/
def whitebatchClosestSatContLoop (o : StepOracle) : Nat → Nat → Board → DrainResult
  | _, 0, b => DrainResult.done b
  | k, fuel + 1, b =>
    if b.unsatisfied.isEmpty || b.whiteCells.isEmpty then DrainResult.done b
    else
      match sample b.unsatisfied (o.moveSeed k) with
      | none => DrainResult.crashed b
      | some mi =>
        let b1 := { b with whiteCells := sortByDist b mi b.whiteCells }
        if b1.unsatisfied.length < b1.stopping then DrainResult.stopped b1
        else
          match (match findSatisfying b1 (colorAt b1 mi) b1.whiteCells with
                 | some ei => some ei
                 | none => b1.whiteCells.head?) with
          | none => DrainResult.crashed b1
          | some ei =>
            let b2 := { b1 with whiteCells := b1.whiteCells.erase ei ++ [mi],
                                unsatisfied := b1.unsatisfied.erase mi }
            let b3 := setcolor (setcolor b2 ei (colorAt b2 mi)) mi Color.white
            whitebatchClosestSatContLoop o (k + 1) fuel b3

/-- Models `Board.step_whitebatch_closestSat_cont` (source lines 803–841). -/
def step_whitebatch_closestSat_cont (b : Board) (o : StepOracle) : StepResult :=
  match whitebatchClosestSatContLoop o 0 b.unsatisfied.length b with
  | DrainResult.done b' => StepResult.ok (pushSnapshot (reload_sets b'))
  | DrainResult.stopped b' => StepResult.stop b'
  | DrainResult.crashed b' => StepResult.crash b'

/-- Models `Board.averagepval` (source lines 980–990): sum `pval` over all non-white
nodes, divide by `size² - len(whiteCells)`; `none` models the
`ZeroDivisionError` raised exactly when that denominator is zero. -/
def averagepval (b : Board) : Option ℚ :=
  let pvalcount : ℚ :=
    b.nodes.foldl (fun acc n => if n.color != Color.white then acc + n.pval else acc) 0
  if (b.size ^ 2 : Int) - (b.whiteCells.length : Int) = 0 then none
  else some (pvalcount / (((b.size ^ 2 : Int) - (b.whiteCells.length : Int) : Int) : ℚ))

/-- The `algoDict` dispatch table of `Board.run` (source lines 916–933), in
source order. -/
def algoDict : List (String × (Board → StepOracle → StepResult)) :=
  [("singleRandom", step_single_random),
   ("singleClosest", step_single_closest),
   ("singleRandomSatisfyStop", step_single_randomSat_stop),
   ("singleRandomSatisfyContinue", step_single_randomSat_cont),
   ("singleClosestSatisfyStop", step_single_closestSat_stop),
   ("singleClosestSatisfyContinue", step_single_closestSat_cont),
   ("whitebatchRandom", step_whitebatch_random),
   ("batchRandom", step_batch_random),
   ("whitebatchRandomSatisfyStop", step_whitebatch_randomSat_stop),
   ("batchRandomSatisfyStop", step_batch_randomSat_stop),
   ("whitebatchRandomSatisfyContinue", step_whitebatch_randomSat_cont),
   ("batchRandomSatisfyContinue", step_batch_randomSat_cont),
   ("whitebatchClosest", step_whitebatch_closest),
   ("batchClosest", step_batch_closest),
   ("whitebatchClosestSatisfyStop", step_whitebatch_closestSat_stop),
   ("batchClosestSatisfyStop", step_batch_closestSat_stop),
   ("whitebatchClosestSatisfyContinue", step_whitebatch_closestSat_cont),
   ("batchClosestSatisfyContinue", step_batch_closestSat_cont)]

/-- The driver loop of `Board.run` (source lines 939–950): while the step
budget remains and the last step returned `True`, stop on an empty
unsatisfied set (convergence), otherwise invoke the step function and count
the external step.  `rem` is the remaining budget `iters - i`.  An exception
raised by a step propagates out of `run` (`Except.error`, carrying the board
at raise time). -/
def runLoop (stepfunction : Board → StepOracle → StepResult) (o : Nat → StepOracle) :
    Nat → Nat → Board → Except (String × Board) (Nat × Board)
  | i, 0, b => Except.ok (i, b)
  | i, rem + 1, b =>
    if b.unsatisfied.isEmpty then Except.ok (i, b)
    else
      match stepfunction b (o i) with
      | StepResult.ok b' => runLoop stepfunction o (i + 1) rem b'
      | StepResult.stop b' => Except.ok (i + 1, b')
      | StepResult.crash b' => Except.error ("unhandled exception in step", b')

/-- Models `Board.run` (source lines 906–950): resolve the policy name in `algoDict`
— `ValueError` (an `Except.error` carrying the untouched board) when the name
is unknown — then drive the loop and return the number of external steps
executed together with the final board. -/
def run (b : Board) (iters : Nat) (assignAlgorithm : String) (o : Nat → StepOracle) :
    Except (String × Board) (Nat × Board) :=
  match algoDict.find? (fun p => p.1 == assignAlgorithm) with
  | none => Except.error ("Wrong function name in run: " ++ assignAlgorithm, b)
  | some p => runLoop p.2 o 0 iters b

/-! ## Basic facts about `reload_sets` -/

theorem reload_sets_length (b : Board) : (reload_sets b).nodes.length = b.nodes.length := by
  simp [reload_sets]

theorem reload_sets_nodeAt (b : Board) (i : Nat) (h : i < b.nodes.length) :
    nodeAt (reload_sets b) i = refreshNode b i := by
  show ((List.range b.nodes.length).map (refreshNode b)).getD i default = refreshNode b i
  have hlen : i < ((List.range b.nodes.length).map (refreshNode b)).length := by simpa using h
  rw [List.getD_eq_getElem _ _ hlen, List.getElem_map, List.getElem_range]

theorem refreshNode_color (b : Board) (i : Nat) :
    (refreshNode b i).color = colorAt b i := rfl

theorem reload_sets_colorAt (b : Board) (i : Nat) :
    colorAt (reload_sets b) i = colorAt b i := by
  by_cases h : i < b.nodes.length
  · rw [colorAt, reload_sets_nodeAt b i h, refreshNode_color]
  · have h1 : (reload_sets b).nodes.length ≤ i := by
      rw [reload_sets_length]; omega
    have h2 : b.nodes.length ≤ i := by omega
    rw [colorAt, colorAt, nodeAt, nodeAt, List.getD_eq_default, List.getD_eq_default]
    · exact h2
    · exact h1

theorem reload_sets_mem_whiteCells (b : Board) (i : Nat) :
    i ∈ (reload_sets b).whiteCells ↔ i < b.nodes.length ∧ colorAt b i = Color.white := by
  simp [reload_sets, List.mem_filter]

theorem reload_sets_mem_unsatisfied (b : Board) (i : Nat) :
    i ∈ (reload_sets b).unsatisfied ↔
      i < b.nodes.length ∧ colorAt b i ≠ Color.white ∧ (refreshNode b i).pval < b.pbound := by
  simp [reload_sets, List.mem_filter, and_assoc]

/-! ## C3 — `reload_sets` partition invariant -/

/-- C3: after any call to `reload_sets`, the unsatisfied list and the
white-cell list are disjoint, the white-cell list contains exactly the node
indices whose color is white, and the unsatisfied list contains exactly the
occupied node indices whose freshly recomputed satisfaction (the `pval`
stored by the refresh) is strictly below the threshold — no extraneous
members in either list. -/
theorem reload_sets_partition (b : Board) :
    (∀ i, ¬(i ∈ (reload_sets b).unsatisfied ∧ i ∈ (reload_sets b).whiteCells)) ∧
    (∀ i, i ∈ (reload_sets b).whiteCells ↔
      i < (reload_sets b).nodes.length ∧ colorAt (reload_sets b) i = Color.white) ∧
    (∀ i, i ∈ (reload_sets b).unsatisfied ↔
      i < (reload_sets b).nodes.length ∧ colorAt (reload_sets b) i ≠ Color.white ∧
        (nodeAt (reload_sets b) i).pval < (reload_sets b).pbound) := by
  have hp : (reload_sets b).pbound = b.pbound := rfl
  refine ⟨?_, ?_, ?_⟩
  · intro i hi
    obtain ⟨hu, hw⟩ := hi
    rw [reload_sets_mem_unsatisfied] at hu
    rw [reload_sets_mem_whiteCells] at hw
    exact hu.2.1 hw.2
  · intro i
    rw [reload_sets_mem_whiteCells, reload_sets_length, reload_sets_colorAt]
  · intro i
    rw [reload_sets_mem_unsatisfied, reload_sets_length, reload_sets_colorAt, hp]
    constructor
    · rintro ⟨h1, h2, h3⟩
      exact ⟨h1, h2, by rw [reload_sets_nodeAt b i h1]; exact h3⟩
    · rintro ⟨h1, h2, h3⟩
      exact ⟨h1, h2, by rw [reload_sets_nodeAt b i h1] at h3; exact h3⟩

/-! ## C4 — `Node.update` satisfaction formulas -/

/-- C4: after `Node.update`, a node with zero occupied neighbors has
`pval = redval = blueval = 1`; a node with at least one occupied neighbor has
`redval + blueval = 1` exactly (as rationals), a white node has `pval = 1`,
and an occupied node's `pval` equals the fraction of its occupied neighbors
sharing its own color. -/
theorem update_satisfaction (c : Color) (ns : List Color) :
    (ns.countP (fun x => x == Color.red) + ns.countP (fun x => x == Color.blue) = 0 →
      Node.update c ns = (1, 1, 1)) ∧
    (ns.countP (fun x => x == Color.red) + ns.countP (fun x => x == Color.blue) ≠ 0 →
      ((Node.update c ns).2.1 + (Node.update c ns).2.2 = 1 ∧
       (c = Color.white → (Node.update c ns).1 = 1) ∧
       (c = Color.red → (Node.update c ns).1 = (Node.update c ns).2.1) ∧
       (c = Color.blue → (Node.update c ns).1 = (Node.update c ns).2.2) ∧
       (Node.update c ns).2.1 =
         (ns.countP (fun x => x == Color.red) : ℚ) /
           ((ns.countP (fun x => x == Color.red) : ℚ) +
             (ns.countP (fun x => x == Color.blue) : ℚ)) ∧
       (Node.update c ns).2.2 =
         (ns.countP (fun x => x == Color.blue) : ℚ) /
           ((ns.countP (fun x => x == Color.red) : ℚ) +
             (ns.countP (fun x => x == Color.blue) : ℚ)))) := by
  constructor
  · intro h
    simp only [Node.update]
    rw [if_pos h]
  · intro h
    have hq : ((ns.countP (fun x => x == Color.red) : ℚ) +
        (ns.countP (fun x => x == Color.blue) : ℚ)) ≠ 0 := by
      intro hc
      apply h
      have := hc
      push_cast at this
      exact_mod_cast this
    simp only [Node.update]
    rw [if_neg h]
    refine ⟨?_, ?_, ?_, ?_, rfl, rfl⟩
    · show (ns.countP (fun x => x == Color.red) : ℚ) /
          ((ns.countP (fun x => x == Color.red) : ℚ) +
            (ns.countP (fun x => x == Color.blue) : ℚ)) +
        (ns.countP (fun x => x == Color.blue) : ℚ) /
          ((ns.countP (fun x => x == Color.red) : ℚ) +
            (ns.countP (fun x => x == Color.blue) : ℚ)) = 1
      rw [div_add_div_same, div_self hq]
    · intro hc; subst hc; rfl
    · intro hc; subst hc; rfl
    · intro hc; subst hc; rfl

/-- Witness for C4: a red node with one red and one blue neighbor gets
`redval + blueval = 1`. -/
theorem update_satisfaction_witness :
    (Node.update Color.red [Color.red, Color.blue]).2.1 +
      (Node.update Color.red [Color.red, Color.blue]).2.2 = 1 :=
  ((update_satisfaction Color.red [Color.red, Color.blue]).2 (by decide)).1

/-! ## C5 — conservation of color counts under a micro-move -/

theorem countP_set (p : Node → Bool) (a : Node) :
    ∀ (l : List Node) (i : Nat), i < l.length →
      (l.set i a).countP p + (if p (l.getD i default) then 1 else 0) =
        l.countP p + (if p a then 1 else 0) := by
  intro l
  induction l with
  | nil => intro i h; simp at h
  | cons x xs ih =>
    intro i h
    cases i with
    | zero =>
      cases hpa : p a <;> cases hpx : p x <;>
        simp [List.countP_cons, hpa, hpx]
    | succ n =>
      have hn : n < xs.length := by simpa using h
      have hih := ih n hn
      cases hpa : p a <;> cases hpd : p (xs.getD n default) <;>
        cases hpx : p x <;>
        simp [List.countP_cons, hpa, hpd, hpx] at hih ⊢ <;> omega

theorem countColor_setcolor (b : Board) (i : Nat) (h : i < b.nodes.length) (c d : Color) :
    countColor (setcolor b i c) d + (if colorAt b i = d then 1 else 0) =
      countColor b d + (if c = d then 1 else 0) := by
  have hset := countP_set (fun n => n.color == d) { nodeAt b i with color := c } b.nodes i h
  simp only [beq_iff_eq] at hset
  simp only [countColor, setcolor, colorAt, nodeAt] at hset ⊢
  simpa [beq_iff_eq] using hset

theorem setcolor_length (b : Board) (i : Nat) (c : Color) :
    (setcolor b i c).nodes.length = b.nodes.length := by
  simp [setcolor]

theorem nodeAt_setcolor_ne (b : Board) (i j : Nat) (c : Color) (hij : i ≠ j) :
    nodeAt (setcolor b j c) i = nodeAt b i := by
  simp only [nodeAt, setcolor]
  by_cases h : i < b.nodes.length
  · rw [List.getD_eq_getElem _ _ (by simpa using h), List.getD_eq_getElem _ _ h]
    apply List.getElem_set_ne
    omega
  · rw [List.getD_eq_default _ _ (by simpa using Nat.le_of_not_lt h),
      List.getD_eq_default _ _ (Nat.le_of_not_lt h)]

theorem colorAt_setcolor_ne (b : Board) (i j : Nat) (c : Color) (hij : i ≠ j) :
    colorAt (setcolor b j c) i = colorAt b i := by
  rw [colorAt, nodeAt_setcolor_ne b i j c hij, colorAt]

theorem countP_range_getD (p : Node → Bool) :
    ∀ (l : List Node),
      (List.range l.length).countP (fun i => p (l.getD i default)) = l.countP p := by
  intro l
  induction l with
  | nil => simp
  | cons x xs ih =>
    rw [List.length_cons, List.range_succ_eq_map, List.countP_cons, List.countP_map]
    have h1 : ((fun i => p ((x :: xs).getD i default)) ∘ Nat.succ) =
        (fun i => p (xs.getD i default)) := by
      funext i
      simp [List.getD_cons_succ]
    rw [h1, ih, List.countP_cons]
    simp [List.getD_cons_zero]

theorem reload_sets_countColor (b : Board) (c : Color) :
    countColor (reload_sets b) c = countColor b c := by
  show ((List.range b.nodes.length).map (refreshNode b)).countP (fun n => n.color == c) = _
  rw [List.countP_map]
  exact countP_range_getD (fun n => n.color == c) b.nodes

theorem countColor_sum_eq_length (b : Board) :
    countColor b Color.red + countColor b Color.blue + countColor b Color.white =
      b.nodes.length := by
  simp only [countColor]
  induction b.nodes with
  | nil => simp
  | cons x xs ih =>
    cases hx : x.color <;> simp [List.countP_cons, hx] <;> omega

/-- C5: a relocation micro-move — retype a white destination cell to the
mover's color, then retype the mover to white (`Empty.setcolor(Moving.color);
Moving.setcolor('white')`) — preserves the number of red, blue and white
cells; moreover the three counts always sum to the grid area, so across any
number of relocation steps the occupied-cell count is invariant. -/
theorem micro_move_conservation (b : Board) (mi ei : Nat)
    (hmi : mi < b.nodes.length) (hei : ei < b.nodes.length)
    (hw : colorAt b ei = Color.white) (ho : colorAt b mi ≠ Color.white)
    (hsz : b.size ^ 2 = b.nodes.length) :
    (countColor (setcolor (setcolor b ei (colorAt b mi)) mi Color.white) Color.red =
       countColor b Color.red ∧
     countColor (setcolor (setcolor b ei (colorAt b mi)) mi Color.white) Color.blue =
       countColor b Color.blue ∧
     countColor (setcolor (setcolor b ei (colorAt b mi)) mi Color.white) Color.white =
       countColor b Color.white) ∧
    countColor b Color.red + countColor b Color.blue + countColor b Color.white =
      b.size ^ 2 := by
  have hne : mi ≠ ei := fun hc => ho (hc ▸ hw)
  have hmi1 : mi < (setcolor b ei (colorAt b mi)).nodes.length := by
    rw [setcolor_length]; exact hmi
  have hcolorAt1 : colorAt (setcolor b ei (colorAt b mi)) mi = colorAt b mi :=
    colorAt_setcolor_ne b mi ei (colorAt b mi) hne
  have key : ∀ d, countColor (setcolor (setcolor b ei (colorAt b mi)) mi Color.white) d =
      countColor b d := by
    intro d
    have h1 := countColor_setcolor b ei hei (colorAt b mi) d
    rw [hw] at h1
    have h2 := countColor_setcolor (setcolor b ei (colorAt b mi)) mi hmi1 Color.white d
    rw [hcolorAt1] at h2
    exact Nat.add_right_cancel (h2.trans h1)
  refine ⟨⟨key _, key _, key _⟩, ?_⟩
  rw [hsz]
  exact countColor_sum_eq_length b

/-- A node with given color and coordinates and zeroed cached values, for
building concrete test boards. -/
def mkNode (c : Color) (x y : Int) : Node :=
  { color := c, x := x, y := y, pval := 0, redval := 0, blueval := 0 }

/-- A concrete 2×2 board: node 0 red, node 1 white, node 2 blue, node 3 red,
fully adjacent (king moves on a 2×2 grid), threshold 1/2. -/
def exBoard : Board :=
  { size := 2, pbound := mkRat 1 2, stopping := 1,
    nodes := [mkNode Color.red 0 0, mkNode Color.white 0 1,
              mkNode Color.blue 1 0, mkNode Color.red 1 1],
    adj := [[1, 2, 3], [0, 2, 3], [0, 1, 3], [0, 1, 2]],
    unsatisfied := [0], whiteCells := [1], animationList := [] }

/-- Witness for C5 at `exBoard`: moving node 0 (red) onto node 1 (white). -/
theorem micro_move_conservation_witness :
    (countColor (setcolor (setcolor exBoard 1 (colorAt exBoard 0)) 0 Color.white) Color.red =
       countColor exBoard Color.red ∧
     countColor (setcolor (setcolor exBoard 1 (colorAt exBoard 0)) 0 Color.white) Color.blue =
       countColor exBoard Color.blue ∧
     countColor (setcolor (setcolor exBoard 1 (colorAt exBoard 0)) 0 Color.white) Color.white =
       countColor exBoard Color.white) ∧
    countColor exBoard Color.red + countColor exBoard Color.blue +
      countColor exBoard Color.white = exBoard.size ^ 2 :=
  micro_move_conservation exBoard 0 1 (by decide) (by decide) (by decide) (by decide)
    (by decide)

/-! ## C10 — `step_single_closest` with no empty cells raises -/

theorem sortByDist_ne_nil (b : Board) (mi : Nat) (ws : List Nat) (h : ws ≠ []) :
    sortByDist b mi ws ≠ [] := by
  intro hc
  apply h
  have hperm := sortByKey_perm (fun i => distSq (nodeAt b mi) (nodeAt b i)) ws
  rw [sortByDist] at hc
  rw [hc] at hperm
  exact (hperm.symm.eq_nil)

/-- C10: a `step_single_closest` call made while the white-cell list is
empty but the unsatisfied list is non-empty raises an exception (the
destination is taken as `whiteCells[0]` *before* the stopping-floor check, an
`IndexError`) instead of returning `False` — regardless of the stopping
floor. -/
theorem closest_empty_whiteCells_crash (b : Board) (o : StepOracle)
    (hw : b.whiteCells = []) (hu : b.unsatisfied ≠ []) :
    step_single_closest b o = StepResult.crash b := by
  obtain ⟨sz, pb, st, nd, ad, us, wc, an⟩ := b
  simp only at hw hu ⊢
  subst hw
  have hne : ¬ ((Board.mk sz pb st nd ad us [] an).unsatisfied.isEmpty = true) := by
    simpa [List.isEmpty_iff] using hu
  simp only [step_single_closest, sample_eq_some _ _ hne]
  rfl

/-- A fixed oracle for concrete runs: every draw picks index 0 and the
shuffle leaves the list unchanged (one concrete possible behavior of the
random source). -/
def exOracle : StepOracle :=
  { moveSeed := fun _ => 0, emptySeed := fun _ => 0, shuffle := fun _ l => l }

/-- Models `exBoard` with no white-cell candidates recorded. -/
def c10Board : Board := { exBoard with whiteCells := [] }

/-- Witness for C10: on `c10Board` the call crashes. -/
theorem closest_empty_whiteCells_crash_witness :
    step_single_closest c10Board exOracle = StepResult.crash c10Board :=
  closest_empty_whiteCells_crash c10Board exOracle (by decide) (by decide)

/-! ## C2 — stopping floor and mutation -/

/-- A concrete board for the stopping-floor counterexample: three red cells
with no neighbors in the unsatisfied list, three white cells, floor 2.  A
`step_batch_closest` call performs two micro-moves (3 ≥ 2, then 2 ≥ 2) and
only then hits the floor (1 < 2) and returns `False` — with cell 0 already
retyped. -/
def c2Board : Board :=
  { size := 3, pbound := mkRat 1 2, stopping := 2,
    nodes := [mkNode Color.red 0 0, mkNode Color.red 0 1, mkNode Color.red 0 2,
              mkNode Color.white 1 0, mkNode Color.white 1 1, mkNode Color.white 1 2],
    adj := [[], [], [], [], [], []],
    unsatisfied := [0, 1, 2], whiteCells := [3, 4, 5], animationList := [] }

/-- C2 counterexample: a `step_batch_closest` call that returns `False`
(`isStop`) with cell 0's type differing from its type at call entry — the
false return of a batch closest drain does *not* leave every cell's type as
it was when the external call began. -/
theorem stopping_floor_counterexample :
    (step_batch_closest c2Board exOracle).isStop = true ∧
    colorAt (step_batch_closest c2Board exOracle).board 0 ≠ colorAt c2Board 0 := by
  decide

/-- C2 (amended): for the three single closest variants called with a
non-empty unsatisfied list (plain `singleClosest` additionally needs a
non-empty white-cell list, cf. C10), a call with `|unsatisfied| <
stoppingFloor` returns `False` with every cell's type unchanged.  For the
batch and whitebatch closest drains the floor is checked per micro-iteration,
so the same holds only of the *call entry* state: when the floor condition
holds at entry (with both candidate pools non-empty) the first iteration
returns `False` with no cell retyped; a false return reached later in the
drain keeps the micro-moves already performed (see the counterexample). -/
theorem stopping_floor_behavior (b : Board) (o : StepOracle)
    (hu : b.unsatisfied ≠ []) (hwne : b.whiteCells ≠ [])
    (hfloor : b.unsatisfied.length < b.stopping) :
    (∃ b', step_single_closest b o = StepResult.stop b' ∧ b'.nodes = b.nodes) ∧
    (∃ b', step_single_closestSat_stop b o = StepResult.stop b' ∧ b'.nodes = b.nodes) ∧
    (∃ b', step_single_closestSat_cont b o = StepResult.stop b' ∧ b'.nodes = b.nodes) ∧
    (∃ b', step_batch_closest b o = StepResult.stop b' ∧ b'.nodes = b.nodes) ∧
    (∃ b', step_whitebatch_closest b o = StepResult.stop b' ∧ b'.nodes = b.nodes) := by
  have hne : ¬ (b.unsatisfied.isEmpty = true) := by
    simpa [List.isEmpty_iff] using hu
  have hguard : (b.unsatisfied.isEmpty || b.whiteCells.isEmpty) = false := by
    rw [Bool.or_eq_false_iff]
    exact ⟨by simpa [List.isEmpty_iff] using hu, by simpa [List.isEmpty_iff] using hwne⟩
  obtain ⟨n, hn⟩ : ∃ n, b.unsatisfied.length = n + 1 := by
    cases hL : b.unsatisfied.length with
    | zero => exact absurd (List.length_eq_zero.mp hL) hu
    | succ m => exact ⟨m, rfl⟩
  refine ⟨?_, ?_, ?_, ?_, ?_⟩
  · refine ⟨{ b with whiteCells := sortByDist b (b.unsatisfied.getD (o.moveSeed 0 % b.unsatisfied.length) 0) b.whiteCells }, ?_, rfl⟩
    simp only [step_single_closest, sample_eq_some _ _ hne]
    split
    next heq => exact absurd heq (sortByDist_ne_nil b _ _ hwne)
    next e rest heq =>
      rw [if_pos hfloor]
  · refine ⟨{ b with whiteCells := sortByDist b (b.unsatisfied.getD (o.moveSeed 0 % b.unsatisfied.length) 0) b.whiteCells }, ?_, rfl⟩
    simp only [step_single_closestSat_stop, sample_eq_some _ _ hne]
    rw [if_pos hfloor]
  · refine ⟨{ b with whiteCells := sortByDist b (b.unsatisfied.getD (o.moveSeed 0 % b.unsatisfied.length) 0) b.whiteCells }, ?_, rfl⟩
    simp only [step_single_closestSat_cont, sample_eq_some _ _ hne]
    rw [if_pos hfloor]
  · refine ⟨{ b with whiteCells := sortByDist b (b.unsatisfied.getD (o.moveSeed 0 % b.unsatisfied.length) 0) b.whiteCells }, ?_, rfl⟩
    simp only [step_batch_closest, hn, batchClosestLoop, hguard, Bool.false_eq_true,
      if_false, sample_eq_some _ _ hne]
    have hfl : n + 1 < b.stopping := hn ▸ hfloor
    cases hsort : sortByDist b (b.unsatisfied.getD (o.moveSeed 0 % (n + 1)) 0) b.whiteCells with
    | nil => exact absurd hsort (sortByDist_ne_nil b _ _ hwne)
    | cons e rest => simp [hfl]
  · refine ⟨{ b with whiteCells := sortByDist b (b.unsatisfied.getD (o.moveSeed 0 % b.unsatisfied.length) 0) b.whiteCells }, ?_, rfl⟩
    simp only [step_whitebatch_closest, hn, whitebatchClosestLoop, hguard, Bool.false_eq_true,
      if_false, sample_eq_some _ _ hne]
    have hfl : n + 1 < b.stopping := hn ▸ hfloor
    cases hsort : sortByDist b (b.unsatisfied.getD (o.moveSeed 0 % (n + 1)) 0) b.whiteCells with
    | nil => exact absurd hsort (sortByDist_ne_nil b _ _ hwne)
    | cons e rest => simp [hfl]

/-- Models `exBoard` with stopping floor 2, so its single unsatisfied cell is below
the floor. -/
def c2wBoard : Board := { exBoard with stopping := 2 }

/-- Witness for the amended C2: on a board with one unsatisfied cell and
floor 2, all five closest variants return `False` with the node list
unchanged. -/
theorem stopping_floor_behavior_witness :
    (∃ b', step_single_closest c2wBoard exOracle = StepResult.stop b' ∧
      b'.nodes = c2wBoard.nodes) ∧
    (∃ b', step_single_closestSat_stop c2wBoard exOracle = StepResult.stop b' ∧
      b'.nodes = c2wBoard.nodes) ∧
    (∃ b', step_single_closestSat_cont c2wBoard exOracle = StepResult.stop b' ∧
      b'.nodes = c2wBoard.nodes) ∧
    (∃ b', step_batch_closest c2wBoard exOracle = StepResult.stop b' ∧
      b'.nodes = c2wBoard.nodes) ∧
    (∃ b', step_whitebatch_closest c2wBoard exOracle = StepResult.stop b' ∧
      b'.nodes = c2wBoard.nodes) :=
  stopping_floor_behavior c2wBoard exOracle (by decide) (by decide) (by decide)

/-! ## C1 — satisfy-stop exhaustion -/

theorem findSatisfying_eq_none (b : Board) (c : Color) (ws : List Nat)
    (h : ∀ i ∈ ws, (nodeAt b i).redval < b.pbound ∧ (nodeAt b i).blueval < b.pbound) :
    findSatisfying b c ws = none := by
  cases c with
  | white => rfl
  | red =>
    simp only [findSatisfying]
    rw [List.find?_eq_none]
    intro i hi
    simpa using not_le.mpr (h i hi).1
  | blue =>
    simp only [findSatisfying]
    rw [List.find?_eq_none]
    intro i hi
    simpa using not_le.mpr (h i hi).2

theorem otherScanRandom_exhausted (b : Board) (color : Color) (ws : List Nat)
    (hfail : ∀ c, findSatisfying b c ws = none) :
    ∀ (us : List Nat) (moving : Nat),
      ((∃ om ∈ us, colorAt b om ≠ color) →
        otherScanRandom b color ws us moving none = none) ∧
      ((∀ om ∈ us, colorAt b om = color) →
        otherScanRandom b color ws us moving none = some (moving, none)) := by
  intro us
  induction us with
  | nil =>
    intro moving
    refine ⟨?_, fun _ => rfl⟩
    rintro ⟨om, hom, _⟩
    exact absurd hom (List.not_mem_nil om)
  | cons om rest ih =>
    intro moving
    constructor
    · rintro ⟨om', hom', hne⟩
      unfold otherScanRandom
      by_cases hc : colorAt b om = color
      · rw [if_pos (beq_iff_eq.mpr hc)]
        apply (ih moving).1
        rcases List.mem_cons.mp hom' with h | h
        · exact absurd (h ▸ hc) hne
        · exact ⟨om', h, hne⟩
      · rw [if_neg (by simpa using hc), hfail (colorAt b om)]
    · intro hall
      unfold otherScanRandom
      rw [if_pos (beq_iff_eq.mpr (hall om (List.mem_cons_self om rest)))]
      exact (ih moving).2 (fun x hx => hall x (List.mem_cons_of_mem om hx))

theorem otherScanClosest_exhausted (b : Board) (color : Color) :
    ∀ (us ws : List Nat) (moving : Nat),
      (∀ i ∈ ws, (nodeAt b i).redval < b.pbound ∧ (nodeAt b i).blueval < b.pbound) →
      ((∃ om ∈ us, colorAt b om ≠ color) →
        ∃ ws', otherScanClosest b color ws us moving none = Sum.inl ws') ∧
      ((∀ om ∈ us, colorAt b om = color) →
        otherScanClosest b color ws us moving none = Sum.inr (moving, none, ws)) := by
  intro us
  induction us with
  | nil =>
    intro ws moving hws
    refine ⟨?_, fun _ => rfl⟩
    rintro ⟨om, hom, _⟩
    exact absurd hom (List.not_mem_nil om)
  | cons om rest ih =>
    intro ws moving hws
    constructor
    · rintro ⟨om', hom', hne⟩
      unfold otherScanClosest
      by_cases hc : colorAt b om = color
      · rw [if_pos (beq_iff_eq.mpr hc)]
        apply (ih ws moving hws).1
        rcases List.mem_cons.mp hom' with h | h
        · exact absurd (h ▸ hc) hne
        · exact ⟨om', h, hne⟩
      · rw [if_neg (by simpa using hc)]
        have hws' : ∀ i ∈ sortByDist b om ws,
            (nodeAt b i).redval < b.pbound ∧ (nodeAt b i).blueval < b.pbound :=
          fun i hi => hws i ((sortByDist_mem b om ws i).mp hi)
        rw [findSatisfying_eq_none b (colorAt b om) (sortByDist b om ws) hws']
        exact ⟨sortByDist b om ws, rfl⟩
    · intro hall
      unfold otherScanClosest
      rw [if_pos (beq_iff_eq.mpr (hall om (List.mem_cons_self om rest)))]
      exact (ih ws moving hws).2 (fun x hx => hall x (List.mem_cons_of_mem om hx))

/-- C1 counterexample: on `exBoard` the only unsatisfied cell is red, no
white cell qualifies for either color (both cached fractions are below the
threshold), yet `step_single_randomSat_stop` *crashes* (the fallback loop
skips every same-color cell via `continue`, never reaches its `return False`,
and the surviving `None` destination is dereferenced by `Empty.setcolor`) —
it does not return `False` as the claim states for every exhausted case. -/
theorem satisfy_stop_counterexample :
    findSatisfying exBoard Color.red exBoard.whiteCells = none ∧
    findSatisfying exBoard Color.blue exBoard.whiteCells = none ∧
    (step_single_randomSat_stop exBoard exOracle).isStop = false ∧
    (step_single_randomSat_stop exBoard exOracle).isCrash = true := by
  decide

/-- C1 (amended): for a satisfy-stop single policy call in which no white
cell qualifies for either color (so both the mover's-type scan and every
opposite-type rescan are exhausted): if the unsatisfied list contains at
least one cell whose color differs from the chosen mover's, the call returns
`False` without retyping any cell; but if every unsatisfied cell has the
mover's color, the fallback loop never reaches its `return False` and the
call instead raises (the `None` destination is dereferenced), still without
retyping any cell.  The closest variant behaves identically once its
stopping-floor check passes. -/
theorem satisfy_stop_exhausted (b : Board) (o : StepOracle)
    (hq : ∀ i ∈ b.whiteCells, (nodeAt b i).redval < b.pbound ∧ (nodeAt b i).blueval < b.pbound)
    (hshuf : ∀ i ∈ o.shuffle 0 b.whiteCells, i ∈ b.whiteCells)
    (hu : b.unsatisfied ≠ []) :
    ((∃ om ∈ b.unsatisfied,
        colorAt b om ≠ colorAt b (b.unsatisfied.getD (o.moveSeed 0 % b.unsatisfied.length) 0)) →
      (∃ b', step_single_randomSat_stop b o = StepResult.stop b' ∧ b'.nodes = b.nodes) ∧
      (¬ b.unsatisfied.length < b.stopping →
        ∃ b', step_single_closestSat_stop b o = StepResult.stop b' ∧ b'.nodes = b.nodes)) ∧
    ((∀ om ∈ b.unsatisfied,
        colorAt b om = colorAt b (b.unsatisfied.getD (o.moveSeed 0 % b.unsatisfied.length) 0)) →
      (∃ b', step_single_randomSat_stop b o = StepResult.crash b' ∧ b'.nodes = b.nodes) ∧
      (¬ b.unsatisfied.length < b.stopping →
        ∃ b', step_single_closestSat_stop b o = StepResult.crash b' ∧ b'.nodes = b.nodes)) := by
  have hne : ¬ (b.unsatisfied.isEmpty = true) := by
    simpa [List.isEmpty_iff] using hu
  set mi := b.unsatisfied.getD (o.moveSeed 0 % b.unsatisfied.length) 0 with hmi
  -- the shuffled board of the random variant
  have hqS : ∀ i ∈ o.shuffle 0 b.whiteCells,
      (nodeAt b i).redval < b.pbound ∧ (nodeAt b i).blueval < b.pbound :=
    fun i hi => hq i (hshuf i hi)
  have hfailS : ∀ c, findSatisfying { b with whiteCells := o.shuffle 0 b.whiteCells } c
      (o.shuffle 0 b.whiteCells) = none :=
    fun c => findSatisfying_eq_none _ c _ hqS
  -- the sorted board of the closest variant
  have hqD : ∀ i ∈ sortByDist b mi b.whiteCells,
      (nodeAt b i).redval < b.pbound ∧ (nodeAt b i).blueval < b.pbound :=
    fun i hi => hq i ((sortByDist_mem b mi b.whiteCells i).mp hi)
  have hfailD : ∀ c, findSatisfying { b with whiteCells := sortByDist b mi b.whiteCells } c
      (sortByDist b mi b.whiteCells) = none :=
    fun c => findSatisfying_eq_none _ c _ hqD
  have hoppS : (∃ om ∈ b.unsatisfied, colorAt b om ≠ colorAt b mi) →
      ∃ om ∈ b.unsatisfied,
        colorAt { b with whiteCells := o.shuffle 0 b.whiteCells } om ≠
          colorAt { b with whiteCells := o.shuffle 0 b.whiteCells } mi := fun h => h
  have hsameS : (∀ om ∈ b.unsatisfied, colorAt b om = colorAt b mi) →
      ∀ om ∈ b.unsatisfied,
        colorAt { b with whiteCells := o.shuffle 0 b.whiteCells } om =
          colorAt { b with whiteCells := o.shuffle 0 b.whiteCells } mi := fun h => h
  have hoppD : (∃ om ∈ b.unsatisfied, colorAt b om ≠ colorAt b mi) →
      ∃ om ∈ b.unsatisfied,
        colorAt { b with whiteCells := sortByDist b mi b.whiteCells } om ≠
          colorAt { b with whiteCells := sortByDist b mi b.whiteCells } mi := fun h => h
  have hsameD : (∀ om ∈ b.unsatisfied, colorAt b om = colorAt b mi) →
      ∀ om ∈ b.unsatisfied,
        colorAt { b with whiteCells := sortByDist b mi b.whiteCells } om =
          colorAt { b with whiteCells := sortByDist b mi b.whiteCells } mi := fun h => h
  constructor
  · rintro hopp
    constructor
    · refine ⟨{ b with whiteCells := o.shuffle 0 b.whiteCells }, ?_, rfl⟩
      simp only [step_single_randomSat_stop, sample_eq_some _ _ hne, ← hmi, hfailS]
      rw [(otherScanRandom_exhausted { b with whiteCells := o.shuffle 0 b.whiteCells }
        (colorAt { b with whiteCells := o.shuffle 0 b.whiteCells } mi)
        (o.shuffle 0 b.whiteCells) hfailS b.unsatisfied mi).1 (hoppS hopp)]
    · intro hfloor
      obtain ⟨ws', hws'⟩ := ((otherScanClosest_exhausted
        { b with whiteCells := sortByDist b mi b.whiteCells }
        (colorAt { b with whiteCells := sortByDist b mi b.whiteCells } mi)
        b.unsatisfied (sortByDist b mi b.whiteCells) mi hqD).1 (hoppD hopp))
      refine ⟨{ b with whiteCells := ws' }, ?_, rfl⟩
      simp only [step_single_closestSat_stop, sample_eq_some _ _ hne, ← hmi]
      rw [if_neg hfloor,
        hfailD (colorAt { b with whiteCells := sortByDist b mi b.whiteCells } mi), hws']
  · rintro hsame
    constructor
    · refine ⟨{ b with whiteCells := o.shuffle 0 b.whiteCells }, ?_, rfl⟩
      simp only [step_single_randomSat_stop, sample_eq_some _ _ hne, ← hmi, hfailS]
      rw [(otherScanRandom_exhausted { b with whiteCells := o.shuffle 0 b.whiteCells }
        (colorAt { b with whiteCells := o.shuffle 0 b.whiteCells } mi)
        (o.shuffle 0 b.whiteCells) hfailS b.unsatisfied mi).2 (hsameS hsame)]
    · intro hfloor
      refine ⟨{ b with whiteCells := sortByDist b mi b.whiteCells }, ?_, ?_⟩
      · simp only [step_single_closestSat_stop, sample_eq_some _ _ hne, ← hmi]
        rw [if_neg hfloor,
          hfailD (colorAt { b with whiteCells := sortByDist b mi b.whiteCells } mi)]
        rw [(otherScanClosest_exhausted
          { b with whiteCells := sortByDist b mi b.whiteCells }
          (colorAt { b with whiteCells := sortByDist b mi b.whiteCells } mi)
          b.unsatisfied (sortByDist b mi b.whiteCells) mi hqD).2 (hsameD hsame)]
      · rfl

/-- Witness for the amended C1: on `exBoard` (single red unsatisfied cell, no
qualifying white cell for either color) the exhausted satisfy-stop call
crashes without retyping any cell. -/
theorem satisfy_stop_exhausted_witness :
    ∃ b', step_single_randomSat_stop exBoard exOracle = StepResult.crash b' ∧
      b'.nodes = exBoard.nodes :=
  ((satisfy_stop_exhausted exBoard exOracle (by decide) (by decide) (by decide)).2
    (by decide)).1

/-! ## C6 — batch vs whitebatch micro-move pool semantics -/

theorem getD_mod_mem (l : List Nat) (r : Nat) (h : l ≠ []) : l.getD (r % l.length) 0 ∈ l := by
  apply sample_mem (r := r)
  exact sample_eq_some l r (by simpa [List.isEmpty_iff] using h)

/-- The body of one `step_batch_random` micro-move, as a function of the
sampled mover and destination: remove the destination from `whiteCells` and
the mover from `unsatisfied`, then recolor both cells. -/
def batchRandomBody (b : Board) (mi ei : Nat) : Board :=
  let b1 := { b with whiteCells := b.whiteCells.erase ei,
                     unsatisfied := b.unsatisfied.erase mi }
  setcolor (setcolor b1 ei (colorAt b1 mi)) mi Color.white

/-- The body of one `step_whitebatch_random` micro-move: as
`batchRandomBody` plus the vacated mover appended back to `whiteCells`. -/
def whitebatchRandomBody (b : Board) (mi ei : Nat) : Board :=
  let b1 := { b with whiteCells := b.whiteCells.erase ei ++ [mi],
                     unsatisfied := b.unsatisfied.erase mi }
  setcolor (setcolor b1 ei (colorAt b1 mi)) mi Color.white

/-- C6: in a batch-random drain, each micro-move removes the sampled
mover from the unsatisfied pool and the sampled destination from the
white-cell pool without adding the vacated mover back; in a
whitebatch-random drain the same holds except that the vacated mover *is*
appended to the white-cell pool (so it can be chosen as a destination by a
later micro-move of the same drain); and in both variants the external call
performs exactly one full `reload_sets` (and one snapshot), after the drain
loop ends. -/
theorem batch_drain_semantics (b : Board) (o : StepOracle) (k fuel : Nat)
    (hu : b.unsatisfied ≠ []) (hw : b.whiteCells ≠ []) :
    (∃ mi ei,
      mi ∈ b.unsatisfied ∧ ei ∈ b.whiteCells ∧
      batchRandomLoop o k (fuel + 1) b =
        batchRandomLoop o (k + 1) fuel (batchRandomBody b mi ei) ∧
      (batchRandomBody b mi ei).unsatisfied = b.unsatisfied.erase mi ∧
      (batchRandomBody b mi ei).whiteCells = b.whiteCells.erase ei ∧
      (mi ∉ b.whiteCells → mi ∉ (batchRandomBody b mi ei).whiteCells) ∧
      whitebatchRandomLoop o k (fuel + 1) b =
        whitebatchRandomLoop o (k + 1) fuel (whitebatchRandomBody b mi ei) ∧
      (whitebatchRandomBody b mi ei).unsatisfied = b.unsatisfied.erase mi ∧
      (whitebatchRandomBody b mi ei).whiteCells = b.whiteCells.erase ei ++ [mi] ∧
      mi ∈ (whitebatchRandomBody b mi ei).whiteCells) ∧
    step_batch_random b o =
      StepResult.ok (pushSnapshot (reload_sets (batchRandomLoop o 0 b.unsatisfied.length b))) ∧
    step_whitebatch_random b o =
      StepResult.ok (pushSnapshot (reload_sets (whitebatchRandomLoop o 0 b.unsatisfied.length b))) := by
  have hguard : (b.unsatisfied.isEmpty || b.whiteCells.isEmpty) = false := by
    rw [Bool.or_eq_false_iff]
    exact ⟨by simpa [List.isEmpty_iff] using hu, by simpa [List.isEmpty_iff] using hw⟩
  refine ⟨⟨b.unsatisfied.getD (o.moveSeed k % b.unsatisfied.length) 0,
    b.whiteCells.getD (o.emptySeed k % b.whiteCells.length) 0,
    getD_mod_mem _ _ hu, getD_mod_mem _ _ hw, ?_, rfl, rfl, ?_, ?_, rfl, rfl, ?_⟩, rfl, rfl⟩
  · rw [batchRandomLoop]
    simp only [hguard, Bool.false_eq_true, if_false]
    rfl
  · intro hmw hc
    exact hmw (List.mem_of_mem_erase hc)
  · rw [whitebatchRandomLoop]
    simp only [hguard, Bool.false_eq_true, if_false]
    rfl
  · show _ ∈ b.whiteCells.erase _ ++ _
    exact List.mem_append_right _ (List.mem_singleton_self _)

/-- Witness for C6 at `c2Board` (three unsatisfied, three white cells). -/
theorem batch_drain_semantics_witness :
    (∃ mi ei,
      mi ∈ c2Board.unsatisfied ∧ ei ∈ c2Board.whiteCells ∧
      batchRandomLoop exOracle 0 (2 + 1) c2Board =
        batchRandomLoop exOracle (0 + 1) 2 (batchRandomBody c2Board mi ei) ∧
      (batchRandomBody c2Board mi ei).unsatisfied = c2Board.unsatisfied.erase mi ∧
      (batchRandomBody c2Board mi ei).whiteCells = c2Board.whiteCells.erase ei ∧
      (mi ∉ c2Board.whiteCells → mi ∉ (batchRandomBody c2Board mi ei).whiteCells) ∧
      whitebatchRandomLoop exOracle 0 (2 + 1) c2Board =
        whitebatchRandomLoop exOracle (0 + 1) 2 (whitebatchRandomBody c2Board mi ei) ∧
      (whitebatchRandomBody c2Board mi ei).unsatisfied = c2Board.unsatisfied.erase mi ∧
      (whitebatchRandomBody c2Board mi ei).whiteCells =
        c2Board.whiteCells.erase ei ++ [mi] ∧
      mi ∈ (whitebatchRandomBody c2Board mi ei).whiteCells) ∧
    step_batch_random c2Board exOracle =
      StepResult.ok (pushSnapshot (reload_sets
        (batchRandomLoop exOracle 0 c2Board.unsatisfied.length c2Board))) ∧
    step_whitebatch_random c2Board exOracle =
      StepResult.ok (pushSnapshot (reload_sets
        (whitebatchRandomLoop exOracle 0 c2Board.unsatisfied.length c2Board))) :=
  batch_drain_semantics c2Board exOracle 0 2 (by decide) (by decide)

/-! ## C9 — drain termination accounting -/

theorem batchRandom_accounting (o : StepOracle) :
    ∀ (fuel k : Nat) (b : Board), b.unsatisfied.length ≤ fuel →
      (batchRandomLoop o k fuel b).unsatisfied.length + batchRandomMoves o k fuel b =
        b.unsatisfied.length := by
  intro fuel
  induction fuel with
  | zero =>
    intro k b h
    simp [batchRandomLoop, batchRandomMoves]
  | succ n ih =>
    intro k b h
    by_cases hg : (b.unsatisfied.isEmpty || b.whiteCells.isEmpty) = true
    · rw [batchRandomLoop, batchRandomMoves, if_pos hg, if_pos hg]
      omega
    · have hg' : (b.unsatisfied.isEmpty || b.whiteCells.isEmpty) = false :=
        Bool.eq_false_iff.mpr hg
      have hu : b.unsatisfied ≠ [] := by
        intro hc
        rw [Bool.or_eq_false_iff] at hg'
        exact absurd (by simp [hc]) (Bool.eq_false_iff.mp hg'.1)
      have hmem : b.unsatisfied.getD (o.moveSeed k % b.unsatisfied.length) 0 ∈ b.unsatisfied :=
        getD_mod_mem _ _ hu
      have hlen := List.length_erase_of_mem hmem
      have hpos : 0 < b.unsatisfied.length := List.length_pos.mpr hu
      rw [batchRandomLoop, batchRandomMoves, if_neg hg, if_neg hg]
      have hrec := ih (k + 1) (batchRandomBody b
        (b.unsatisfied.getD (o.moveSeed k % b.unsatisfied.length) 0)
        (b.whiteCells.getD (o.emptySeed k % b.whiteCells.length) 0)) (by
          show (b.unsatisfied.erase _).length ≤ n
          omega)
      rw [show (batchRandomBody b
        (b.unsatisfied.getD (o.moveSeed k % b.unsatisfied.length) 0)
        (b.whiteCells.getD (o.emptySeed k % b.whiteCells.length) 0)).unsatisfied.length =
          b.unsatisfied.length - 1 from by
        show (b.unsatisfied.erase _).length = _
        omega] at hrec
      show (batchRandomLoop o (k + 1) n (batchRandomBody b
          (b.unsatisfied.getD (o.moveSeed k % b.unsatisfied.length) 0)
          (b.whiteCells.getD (o.emptySeed k % b.whiteCells.length) 0))).unsatisfied.length +
        (batchRandomMoves o (k + 1) n (batchRandomBody b
          (b.unsatisfied.getD (o.moveSeed k % b.unsatisfied.length) 0)
          (b.whiteCells.getD (o.emptySeed k % b.whiteCells.length) 0)) + 1) =
        b.unsatisfied.length
      omega

theorem whitebatchRandom_accounting (o : StepOracle) :
    ∀ (fuel k : Nat) (b : Board), b.unsatisfied.length ≤ fuel →
      (whitebatchRandomLoop o k fuel b).unsatisfied.length +
        whitebatchRandomMoves o k fuel b = b.unsatisfied.length := by
  intro fuel
  induction fuel with
  | zero =>
    intro k b h
    simp [whitebatchRandomLoop, whitebatchRandomMoves]
  | succ n ih =>
    intro k b h
    by_cases hg : (b.unsatisfied.isEmpty || b.whiteCells.isEmpty) = true
    · rw [whitebatchRandomLoop, whitebatchRandomMoves, if_pos hg, if_pos hg]
      omega
    · have hg' : (b.unsatisfied.isEmpty || b.whiteCells.isEmpty) = false :=
        Bool.eq_false_iff.mpr hg
      have hu : b.unsatisfied ≠ [] := by
        intro hc
        rw [Bool.or_eq_false_iff] at hg'
        exact absurd (by simp [hc]) (Bool.eq_false_iff.mp hg'.1)
      have hmem : b.unsatisfied.getD (o.moveSeed k % b.unsatisfied.length) 0 ∈ b.unsatisfied :=
        getD_mod_mem _ _ hu
      have hlen := List.length_erase_of_mem hmem
      have hpos : 0 < b.unsatisfied.length := List.length_pos.mpr hu
      rw [whitebatchRandomLoop, whitebatchRandomMoves, if_neg hg, if_neg hg]
      have hrec := ih (k + 1) (whitebatchRandomBody b
        (b.unsatisfied.getD (o.moveSeed k % b.unsatisfied.length) 0)
        (b.whiteCells.getD (o.emptySeed k % b.whiteCells.length) 0)) (by
          show (b.unsatisfied.erase _).length ≤ n
          omega)
      rw [show (whitebatchRandomBody b
        (b.unsatisfied.getD (o.moveSeed k % b.unsatisfied.length) 0)
        (b.whiteCells.getD (o.emptySeed k % b.whiteCells.length) 0)).unsatisfied.length =
          b.unsatisfied.length - 1 from by
        show (b.unsatisfied.erase _).length = _
        omega] at hrec
      show (whitebatchRandomLoop o (k + 1) n (whitebatchRandomBody b
          (b.unsatisfied.getD (o.moveSeed k % b.unsatisfied.length) 0)
          (b.whiteCells.getD (o.emptySeed k % b.whiteCells.length) 0))).unsatisfied.length +
        (whitebatchRandomMoves o (k + 1) n (whitebatchRandomBody b
          (b.unsatisfied.getD (o.moveSeed k % b.unsatisfied.length) 0)
          (b.whiteCells.getD (o.emptySeed k % b.whiteCells.length) 0)) + 1) =
        b.unsatisfied.length
      omega

theorem whitebatch_whiteCells_invariant (o : StepOracle) :
    ∀ (fuel k : Nat) (b : Board),
      (whitebatchRandomLoop o k fuel b).whiteCells.length = b.whiteCells.length := by
  intro fuel
  induction fuel with
  | zero => intro k b; rfl
  | succ n ih =>
    intro k b
    by_cases hg : (b.unsatisfied.isEmpty || b.whiteCells.isEmpty) = true
    · rw [whitebatchRandomLoop, if_pos hg]
    · have hg' : (b.unsatisfied.isEmpty || b.whiteCells.isEmpty) = false :=
        Bool.eq_false_iff.mpr hg
      have hw : b.whiteCells ≠ [] := by
        intro hc
        rw [Bool.or_eq_false_iff] at hg'
        exact absurd (by simp [hc]) (Bool.eq_false_iff.mp hg'.2)
      have hmem : b.whiteCells.getD (o.emptySeed k % b.whiteCells.length) 0 ∈ b.whiteCells :=
        getD_mod_mem _ _ hw
      have hpos : 0 < b.whiteCells.length := List.length_pos.mpr hw
      rw [whitebatchRandomLoop, if_neg hg]
      show (whitebatchRandomLoop o (k + 1) n (whitebatchRandomBody b
          (b.unsatisfied.getD (o.moveSeed k % b.unsatisfied.length) 0)
          (b.whiteCells.getD (o.emptySeed k % b.whiteCells.length) 0))).whiteCells.length =
        b.whiteCells.length
      rw [ih]
      show ((b.whiteCells.erase _) ++ [_]).length = b.whiteCells.length
      rw [List.length_append, List.length_erase_of_mem hmem]
      simp
      omega

/-- C9: every batch/whitebatch random drain terminates after at most
`|unsatisfied|` micro-moves: running the loop with its initial fuel, the
number of micro-moves performed plus the remaining unsatisfied-pool size
equals the initial unsatisfied-pool size (each non-returning iteration
removes exactly one element), so the move count is bounded by the initial
size; and a whitebatch drain leaves the white-cell pool size unchanged
(one removal and one append per iteration). -/
theorem drain_termination (b : Board) (o : StepOracle) :
    (batchRandomLoop o 0 b.unsatisfied.length b).unsatisfied.length +
      batchRandomMoves o 0 b.unsatisfied.length b = b.unsatisfied.length ∧
    batchRandomMoves o 0 b.unsatisfied.length b ≤ b.unsatisfied.length ∧
    (whitebatchRandomLoop o 0 b.unsatisfied.length b).unsatisfied.length +
      whitebatchRandomMoves o 0 b.unsatisfied.length b = b.unsatisfied.length ∧
    whitebatchRandomMoves o 0 b.unsatisfied.length b ≤ b.unsatisfied.length ∧
    (whitebatchRandomLoop o 0 b.unsatisfied.length b).whiteCells.length =
      b.whiteCells.length := by
  have h1 := batchRandom_accounting o b.unsatisfied.length 0 b (le_refl _)
  have h2 := whitebatchRandom_accounting o b.unsatisfied.length 0 b (le_refl _)
  have h3 := whitebatch_whiteCells_invariant o b.unsatisfied.length 0 b
  exact ⟨h1, by omega, h2, by omega, h3⟩

/-! ## C7 — `run` dispatch and zero-iteration behavior -/

/-- C7: `algoDict` has exactly 18 policies; `run` with a name outside the
18 fixed identifiers fails with the `ValueError` before mutating any state
(the error carries the board exactly as passed in); and `run` with a valid
name and `maxIterations = 0` performs zero moves and returns `0` with the
board untouched. -/
theorem run_dispatch (b : Board) (o : Nat → StepOracle) (name : String) (iters : Nat) :
    algoDict.length = 18 ∧
    (name ∉ algoDict.map Prod.fst →
      run b iters name o = Except.error ("Wrong function name in run: " ++ name, b)) ∧
    (name ∈ algoDict.map Prod.fst → run b 0 name o = Except.ok (0, b)) := by
  refine ⟨rfl, ?_, ?_⟩
  · intro hnm
    have hfind : algoDict.find? (fun p => p.1 == name) = none := by
      rw [List.find?_eq_none]
      intro p hp
      simp only [beq_iff_eq]
      intro hc
      exact hnm (hc ▸ List.mem_map_of_mem Prod.fst hp)
    rw [run, hfind]
  · intro hnm
    have hfind : (algoDict.find? (fun p => p.1 == name)).isSome := by
      rw [List.find?_isSome]
      obtain ⟨p, hp, hpeq⟩ := List.mem_map.mp hnm
      exact ⟨p, hp, by simp [hpeq]⟩
    rw [run]
    cases hf : algoDict.find? (fun p => p.1 == name) with
    | none => rw [hf] at hfind; cases hfind
    | some p => rfl

/-- Witness for C7: `"bogus"` is rejected with the board untouched, and a
valid name with zero budget returns `0` steps. -/
theorem run_dispatch_witness :
    run exBoard 5 "bogus" (fun _ => exOracle) =
      Except.error ("Wrong function name in run: " ++ "bogus", exBoard) ∧
    run exBoard 0 "batchRandom" (fun _ => exOracle) = Except.ok (0, exBoard) :=
  ⟨(run_dispatch exBoard (fun _ => exOracle) "bogus" 5).2.1 (by decide),
   (run_dispatch exBoard (fun _ => exOracle) "batchRandom" 0).2.2 (by decide)⟩

/-! ## C8 — average satisfaction -/

theorem countP_white_split (l : List Node) :
    l.countP (fun n => n.color != Color.white) +
      l.countP (fun n => n.color == Color.white) = l.length := by
  induction l with
  | nil => simp
  | cons x xs ih =>
    cases hx : x.color <;> simp [List.countP_cons, hx] <;> omega

theorem pval_foldl_eq (l : List Node) :
    l.foldl (fun acc n => if n.color != Color.white then acc + n.pval else acc) 0 =
      ((l.filter (fun n => n.color != Color.white)).map (fun n => n.pval)).sum := by
  suffices h : ∀ (l : List Node) (a : ℚ),
      l.foldl (fun acc n => if n.color != Color.white then acc + n.pval else acc) a =
        a + ((l.filter (fun n => n.color != Color.white)).map (fun n => n.pval)).sum by
    simpa using h l 0
  intro l
  induction l with
  | nil => intro a; simp
  | cons x xs ih =>
    intro a
    rw [List.foldl_cons, List.filter_cons]
    by_cases hx : (x.color != Color.white) = true
    · rw [if_pos hx, if_pos hx, List.map_cons, List.sum_cons, ih]
      ring
    · rw [if_neg hx, if_neg hx, ih]

/-- C8: on a grid state whose white-cell list is consistent with the
board (as after `reload_sets`) and whose node count is the grid area,
`averagepval` fails with the division-by-zero error exactly when every cell
is white, and otherwise returns the sum of the occupied cells' stored
satisfaction values divided by the number of occupied cells. -/
theorem averagepval_characterization (b : Board)
    (hsz : b.size ^ 2 = b.nodes.length)
    (hwc : b.whiteCells.length = b.nodes.countP (fun n => n.color == Color.white)) :
    (averagepval b = none ↔ ∀ n ∈ b.nodes, n.color = Color.white) ∧
    (∀ q, averagepval b = some q →
      q = ((b.nodes.filter (fun n => n.color != Color.white)).map (fun n => n.pval)).sum /
        ((b.nodes.countP (fun n => n.color != Color.white) : ℚ))) := by
  have hsplit := countP_white_split b.nodes
  have hdenom : (b.size ^ 2 : Int) - (b.whiteCells.length : Int) =
      (b.nodes.countP (fun n => n.color != Color.white) : Int) := by
    rw [hwc]
    have h1 : (b.size ^ 2 : Nat) = (b.nodes.countP (fun n => n.color != Color.white)) +
        (b.nodes.countP (fun n => n.color == Color.white)) := by omega
    have h2 : ((b.size : Int)) ^ 2 =
        (b.nodes.countP (fun n => n.color != Color.white) : Int) +
        (b.nodes.countP (fun n => n.color == Color.white) : Int) := by exact_mod_cast h1
    omega
  constructor
  · rw [averagepval]
    constructor
    · intro h
      by_cases hz : (b.size ^ 2 : Int) - (b.whiteCells.length : Int) = 0
      · rw [hdenom] at hz
        have hcz : b.nodes.countP (fun n => n.color != Color.white) = 0 := by
          exact_mod_cast hz
        intro n hn
        have := (List.countP_eq_zero.mp hcz) n hn
        simpa using this
      · rw [if_neg hz] at h
        cases h
    · intro hall
      rw [if_pos]
      rw [hdenom]
      have hcz : b.nodes.countP (fun n => n.color != Color.white) = 0 :=
        List.countP_eq_zero.mpr (fun n hn => by simp [hall n hn])
      exact_mod_cast hcz
  · intro q hq
    rw [averagepval] at hq
    by_cases hz : (b.size ^ 2 : Int) - (b.whiteCells.length : Int) = 0
    · rw [if_pos hz] at hq
      cases hq
    · rw [if_neg hz] at hq
      have hq' := Option.some.inj hq
      rw [← hq', pval_foldl_eq, hdenom]
      push_cast
      rfl

/-- Witness for C8: on `exBoard` (4 nodes, 1 white, consistent lists) the
characterization instantiates. -/
theorem averagepval_characterization_witness :
    (averagepval exBoard = none ↔ ∀ n ∈ exBoard.nodes, n.color = Color.white) ∧
    (∀ q, averagepval exBoard = some q →
      q = ((exBoard.nodes.filter (fun n => n.color != Color.white)).map
        (fun n => n.pval)).sum /
        ((exBoard.nodes.countP (fun n => n.color != Color.white) : ℚ))) :=
  averagepval_characterization exBoard (by decide) (by decide)
